import Mathlib

/-!
Verification of the client-side filter/sort/selection/URL pipeline of the
ifixit-repair-score-site repository. The definitions are a shallow embedding
of the canonical implementation (src/unnamed/part_000, with the chart bucket
logic from src/unnamed/part_003 and src/script.js). JavaScript strings are
modelled as lists of characters, JavaScript numbers occurring here (scores,
counts, comparator results) as integers, nullable fields as `Option`, and
the in-place stable `Array.prototype.sort` as a stable sorting function.
-/

namespace RepairSite

/-- JavaScript strings are modelled as lists of characters. -/
abbrev Str := List Char

/-- Model of `String.prototype.toLowerCase` (per-character lowering). -/
def lowerStr (s : Str) : Str := s.map Char.toLower

/-- Helper for `includesStr`: check that `needle` starts `hay`. -/
def isPrefixL : Str → Str → Bool
  | [], _ => true
  | _ :: _, [] => false
  | a :: as, b :: bs => a == b && isPrefixL as bs

/-- Model of `String.prototype.includes`: substring containment. -/
def includesStr : Str → Str → Bool
  | [], needle => needle.isEmpty
  | a :: t, needle => isPrefixL needle (a :: t) || includesStr t needle

/-- Teardown entry of a device (data model section 3 of the spec,
as consumed by part_000). -/
structure Teardown where
  title : Str
  url : Str
  difficulty : Option Str
  tags : List Str
deriving DecidableEq

/-- Device record as consumed by part_000: `brand`, `repairability_score`
and `teardown_urls` may be absent. -/
structure Device where
  name : Str
  brand : Option Str
  link : Str
  repairability_score : Option Int
  teardown_urls : Option (List Teardown)
deriving DecidableEq

/-- Filter state as read from the DOM by `getFilteredData` (part_000 lines
214-228): the search text, the brand select value (empty means unset), the
hidden score-filter input value (empty means unset) and the
include-unscored checkbox. -/
structure FilterState where
  searchText : Str
  brand : Str
  scoreFilter : Str
  includeNoScore : Bool

/-- Leading decimal digits of a string. -/
def leadingDigits : Str → List Char
  | [] => []
  | c :: cs => if c.isDigit then c :: leadingDigits cs else []

/-- Numeric value of a digit string. -/
def digitsVal (ds : List Char) : Nat :=
  ds.foldl (fun acc c => acc * 10 + (c.toNat - 48)) 0

/-- Model of `parseInt` for the decimal strings this application produces
(an optional sign followed by digits, no leading whitespace, default radix);
`none` stands for `NaN`. -/
def jsParseInt (s : Str) : Option Int :=
  match s with
  | '-' :: rest =>
    let ds := leadingDigits rest
    if ds.isEmpty then none else some (-(digitsVal ds : Int))
  | '+' :: rest =>
    let ds := leadingDigits rest
    if ds.isEmpty then none else some ((digitsVal ds : Int))
  | _ =>
    let ds := leadingDigits s
    if ds.isEmpty then none else some ((digitsVal ds : Int))

/-- Strict equality `===` between two nullable numbers, where `none` stands
for `null`, `undefined` or `NaN`, none of which is `===` to anything here
(`NaN` is not even equal to itself). -/
def strictEqNum : Option Int → Option Int → Bool
  | some a, some b => a == b
  | _, _ => false

/-- Strict equality `===` between a possibly absent brand string and the
chosen brand value (an absent brand is `undefined`, never `===` a string). -/
def brandEq (b : Option Str) (v : Str) : Bool :=
  match b with
  | some x => x == v
  | none => false

/-- The predicate of `getFilteredData` (part_000 lines 221-227): search
match on the lowercased name, exact brand match when a brand is chosen,
strict score equality against `parseInt` of the score filter when one is
set, and presence of a score unless the include-unscored box is checked. -/
def keepDevice (st : FilterState) (d : Device) : Bool :=
  (includesStr (lowerStr d.name) (lowerStr st.searchText))
    && (st.brand.isEmpty || brandEq d.brand st.brand)
    && (st.scoreFilter.isEmpty
        || strictEqNum d.repairability_score (jsParseInt st.scoreFilter))
    && (if st.includeNoScore then true else d.repairability_score.isSome)

/-- Model of `getFilteredData` (part_000 lines 214-228). -/
def getFilteredData (data : List Device) (st : FilterState) : List Device :=
  data.filter (keepDevice st)

/-- Device A of the spec scenarios: brand X, score 9. -/
def devA : Device := ⟨"A".data, some "X".data, [], some 9, none⟩

/-- Device B of the spec scenarios: brand Y, score 3. -/
def devB : Device := ⟨"B".data, some "Y".data, [], some 3, none⟩

/-- Device C of the spec scenarios: brand X, no score. -/
def devC : Device := ⟨"C".data, some "X".data, [], none, none⟩

lemma brandEq_iff (b : Option Str) (v : Str) : brandEq b v = true ↔ b = some v := by
  cases b <;> simp [brandEq]

lemma strictEqNum_iff (a b : Option Int) :
    strictEqNum a b = true ↔ ∃ k, b = some k ∧ a = some k := by
  cases a <;> cases b <;> simp [strictEqNum]

lemma includesStr_nil (hay : Str) : includesStr hay [] = true := by
  cases hay <;> simp [includesStr, isPrefixL]

lemma keepDevice_eq_true_iff (st : FilterState) (d : Device) :
    keepDevice st d = true ↔
      includesStr (lowerStr d.name) (lowerStr st.searchText) = true
      ∧ (st.brand = [] ∨ d.brand = some st.brand)
      ∧ (st.scoreFilter = []
          ∨ ∃ k, jsParseInt st.scoreFilter = some k ∧ d.repairability_score = some k)
      ∧ (st.includeNoScore = true ∨ d.repairability_score.isSome = true) := by
  obtain ⟨search, brand, score, inc⟩ := st
  cases inc <;>
    simp [keepDevice, Bool.and_eq_true, and_assoc, Bool.or_eq_true, brandEq_iff,
      strictEqNum_iff, List.isEmpty_iff]

/-- C1: a record passes `getFilteredData` exactly when its name contains the
search text case-insensitively, the brand filter is unset or matched
exactly, the score filter is unset or strictly matched by the parsed score,
and the include-unscored flag is set or the score is present; on the
three-device scenario dataset with brand filter X and unscored excluded,
the view is exactly the device A. -/
theorem getFilteredData_keeps_iff :
    (∀ (data : List Device) (st : FilterState) (d : Device),
      d ∈ getFilteredData data st ↔
        d ∈ data
        ∧ includesStr (lowerStr d.name) (lowerStr st.searchText) = true
        ∧ (st.brand = [] ∨ d.brand = some st.brand)
        ∧ (st.scoreFilter = []
            ∨ ∃ k, jsParseInt st.scoreFilter = some k ∧ d.repairability_score = some k)
        ∧ (st.includeNoScore = true ∨ d.repairability_score.isSome = true))
    ∧ getFilteredData [devA, devB, devC] ⟨[], "X".data, [], false⟩ = [devA] := by
  refine ⟨fun data st d => ?_, by decide⟩
  rw [getFilteredData, List.mem_filter, keepDevice_eq_true_iff]

/-- C10: the all-pass filter state (empty search, brand unset, score filter
unset, include-unscored on) keeps every record, so filtering is the
identity on every dataset; in particular every lowercased device name
contains the empty search text. -/
theorem getFilteredData_allpass_id :
    (∀ d : Device, includesStr (lowerStr d.name) (lowerStr []) = true)
    ∧ ∀ data : List Device, getFilteredData data ⟨[], [], [], true⟩ = data := by
  constructor
  · intro d
    exact includesStr_nil _
  · intro data
    rw [getFilteredData, List.filter_eq_self]
    intro d _
    simp [keepDevice, lowerStr, includesStr_nil]

/-- Sort direction of the current sort state. -/
inductive Direction where
  | asc
  | desc
deriving DecidableEq

/-- Serialized form of a direction, as used in the `sort` URL parameter. -/
def dirStr : Direction → Str
  | .asc => "asc".data
  | .desc => "desc".data

/-- The mutable `currentSort` object of part_000: a key string and a
direction. -/
structure SortState where
  key : Str
  direction : Direction

/-- Number of teardown entries of a device, with an absent list counting as
zero (part_000 lines 236-237). -/
def teardownCount (d : Device) : Nat :=
  match d.teardown_urls with
  | some l => l.length
  | none => 0

/-- Numeric comparison value extracted by `sortData` (part_000 lines
233-242): the teardown count for the teardown key, otherwise the
repairability score with `null` replaced by the sentinel -1. -/
def numKey (d : Device) (key : Str) : Int :=
  if key == "teardown".data then (teardownCount d : Int)
  else
    match d.repairability_score with
    | some s => s
    | none => -1

/-- String field extracted by `sortData` for the string keys, with an
absent value replaced by the empty string. -/
def strField (d : Device) (key : Str) : Str :=
  if key == "name".data then d.name
  else if key == "brand".data then d.brand.getD []
  else []

/-- Lexicographic `<` on strings by character code, the JavaScript string
comparison used by `sortData`. -/
def strLt : Str → Str → Bool
  | [], [] => false
  | [], _ :: _ => true
  | _ :: _, [] => false
  | a :: as, b :: bs => if a < b then true else if b < a then false else strLt as bs

/-- Comparator result of `sortData` (part_000 lines 247-249): -1, 1 or 0
for the ascending direction, with the signs flipped for descending. -/
def cmpRet (dir : Direction) (lt gt : Bool) : Int :=
  if lt then (match dir with | .asc => -1 | .desc => 1)
  else if gt then (match dir with | .asc => 1 | .desc => -1)
  else 0

/-- The comparator passed to `data.sort` by `sortData` (part_000 lines
232-250): numeric comparison for the score and teardown keys, lowercased
string comparison otherwise. -/
def sortCmp (st : SortState) (a b : Device) : Int :=
  if st.key == "repairability_score".data || st.key == "teardown".data then
    let A := numKey a st.key
    let B := numKey b st.key
    cmpRet st.direction (decide (A < B)) (decide (B < A))
  else
    let A := lowerStr (strField a st.key)
    let B := lowerStr (strField b st.key)
    cmpRet st.direction (strLt A B) (strLt B A)

/-- One insertion step of the stable sort model: the new element is placed
before the first element it does not have to follow. -/
def insertCmp (cmp : α → α → Int) (x : α) : List α → List α
  | [] => [x]
  | y :: ys => if cmp x y ≤ 0 then x :: y :: ys else y :: insertCmp cmp x ys

/-- Model of `Array.prototype.sort` with a comparator: a stable sort. For
the consistent comparators used in this codebase this is the unique stable
sorted permutation that the JavaScript engine is specified to produce. -/
def stableSortBy (cmp : α → α → Int) (l : List α) : List α :=
  l.foldr (insertCmp cmp) []

/-- Model of `sortData` (part_000 lines 230-251). -/
def sortData (st : SortState) (data : List Device) : List Device :=
  stableSortBy (sortCmp st) data

section StableSortLemmas

variable {α : Type _} (cmp : α → α → Int)

lemma insertCmp_perm (x : α) : ∀ l : List α, (insertCmp cmp x l).Perm (x :: l)
  | [] => List.Perm.refl _
  | y :: ys => by
    rw [insertCmp]
    by_cases h : cmp x y ≤ 0
    · simp [h]
    · simp only [h, if_false]
      exact ((insertCmp_perm x ys).cons y).trans (List.Perm.swap x y ys)

lemma stableSortBy_perm : ∀ l : List α, (stableSortBy cmp l).Perm l
  | [] => List.Perm.refl _
  | x :: l => by
    have h1 : stableSortBy cmp (x :: l) = insertCmp cmp x (stableSortBy cmp l) := rfl
    rw [h1]
    exact (insertCmp_perm cmp x _).trans ((stableSortBy_perm l).cons x)

lemma insertCmp_filter_pos (p : α → Bool) (x : α) (hx : p x = true)
    (h : ∀ b, p b = true → cmp x b ≤ 0) :
    ∀ l : List α, (insertCmp cmp x l).filter p = x :: l.filter p
  | [] => by simp [insertCmp, hx]
  | y :: ys => by
    rw [insertCmp]
    by_cases hcy : cmp x y ≤ 0
    · simp [hcy, hx]
    · have hpy : p y = false := by
        cases hpy : p y
        · rfl
        · exact absurd (h y hpy) hcy
      simp [hcy, hpy, insertCmp_filter_pos p x hx h ys]

lemma insertCmp_filter_neg (p : α → Bool) (x : α) (hx : p x = false) :
    ∀ l : List α, (insertCmp cmp x l).filter p = l.filter p
  | [] => by simp [insertCmp, hx]
  | y :: ys => by
    rw [insertCmp]
    by_cases hcy : cmp x y ≤ 0
    · simp [hcy, hx]
    · cases hpy : p y <;>
        simp [hcy, hpy, insertCmp_filter_neg p x hx ys]

lemma stableSortBy_filter (p : α → Bool)
    (h : ∀ a b, p a = true → p b = true → cmp a b ≤ 0) :
    ∀ l : List α, (stableSortBy cmp l).filter p = l.filter p
  | [] => rfl
  | x :: l => by
    have h1 : stableSortBy cmp (x :: l) = insertCmp cmp x (stableSortBy cmp l) := rfl
    rw [h1]
    cases hx : p x
    · rw [insertCmp_filter_neg cmp p x hx, stableSortBy_filter p h l,
        List.filter_cons_of_neg (by simp [hx])]
    · rw [insertCmp_filter_pos cmp p x hx (fun b hb => h x b hx hb),
        stableSortBy_filter p h l, List.filter_cons_of_pos (by simp [hx])]

lemma insertCmp_pairwise
    (htot : ∀ a b, cmp a b ≤ 0 ∨ cmp b a ≤ 0)
    (htrans : ∀ a b c, cmp a b ≤ 0 → cmp b c ≤ 0 → cmp a c ≤ 0)
    (x : α) :
    ∀ l : List α, l.Pairwise (fun a b => cmp a b ≤ 0) →
      (insertCmp cmp x l).Pairwise (fun a b => cmp a b ≤ 0)
  | [], _ => by simp [insertCmp]
  | y :: ys, h => by
    rw [insertCmp]
    rw [List.pairwise_cons] at h
    by_cases hcy : cmp x y ≤ 0
    · rw [if_pos hcy, List.pairwise_cons]
      refine ⟨?_, List.pairwise_cons.mpr h⟩
      intro z hz
      rcases List.mem_cons.mp hz with rfl | hz
      · exact hcy
      · exact htrans x y z hcy (h.1 z hz)
    · rw [if_neg hcy, List.pairwise_cons]
      constructor
      · intro z hz
        rcases List.mem_cons.mp ((insertCmp_perm cmp x ys).mem_iff.mp hz) with rfl | hz
        · rcases htot z y with h1 | h1
          · exact absurd h1 hcy
          · exact h1
        · exact h.1 z hz
      · exact insertCmp_pairwise htot htrans x ys h.2

lemma stableSortBy_pairwise
    (htot : ∀ a b, cmp a b ≤ 0 ∨ cmp b a ≤ 0)
    (htrans : ∀ a b c, cmp a b ≤ 0 → cmp b c ≤ 0 → cmp a c ≤ 0) :
    ∀ l : List α, (stableSortBy cmp l).Pairwise (fun a b => cmp a b ≤ 0)
  | [] => List.Pairwise.nil
  | x :: l => by
    have h1 : stableSortBy cmp (x :: l) = insertCmp cmp x (stableSortBy cmp l) := rfl
    rw [h1]
    exact insertCmp_pairwise cmp htot htrans x _ (stableSortBy_pairwise htot htrans l)

end StableSortLemmas

/-- Teardown T1 of the spec scenario, tagged archived. -/
def tdT1 : Teardown := ⟨"T1".data, [], none, ["archived".data]⟩

/-- Teardown T2 of the spec scenario, untagged. -/
def tdT2 : Teardown := ⟨"T2".data, [], none, []⟩

/-- Device with one teardown entry, used to exercise the teardown-count
sort on distinct counts. -/
def devT : Device := ⟨"T".data, none, [], none, some [tdT2]⟩

lemma sortCmp_teardown (dir : Direction) (a b : Device) :
    sortCmp ⟨"teardown".data, dir⟩ a b =
      cmpRet dir (decide ((teardownCount a : Int) < (teardownCount b : Int)))
        (decide ((teardownCount b : Int) < (teardownCount a : Int))) := rfl

lemma sortCmp_teardown_le_iff (a b : Device) :
    sortCmp ⟨"teardown".data, .asc⟩ a b ≤ 0 ↔ teardownCount a ≤ teardownCount b := by
  rw [sortCmp_teardown]
  by_cases hab : (teardownCount a : Int) < (teardownCount b : Int)
  · simp [cmpRet, hab]
    omega
  · by_cases hba : (teardownCount b : Int) < (teardownCount a : Int) <;>
      simp [cmpRet, hab, hba] <;> omega

/-- C4: for the teardown sort key the comparator of `sortData` compares the
numbers of teardown entries (an absent list counting as zero), returning
-1, 0 or 1 ascending; consequently the ascending teardown sort orders every
output pairwise by nondecreasing teardown count. -/
theorem sortData_teardown_count :
    (∀ a b : Device,
      (teardownCount a < teardownCount b →
        sortCmp ⟨"teardown".data, .asc⟩ a b = -1)
      ∧ (teardownCount a = teardownCount b →
        sortCmp ⟨"teardown".data, .asc⟩ a b = 0)
      ∧ (teardownCount b < teardownCount a →
        sortCmp ⟨"teardown".data, .asc⟩ a b = 1))
    ∧ ∀ l : List Device,
        (sortData ⟨"teardown".data, .asc⟩ l).Pairwise
          (fun a b => teardownCount a ≤ teardownCount b) := by
  constructor
  · intro a b
    refine ⟨fun h => ?_, fun h => ?_, fun h => ?_⟩ <;> rw [sortCmp_teardown]
    · have hb1 : (decide ((teardownCount a : Int) < (teardownCount b : Int))) = true := by
        simp
        omega
      rw [hb1]
      rfl
    · have hb1 : (decide ((teardownCount a : Int) < (teardownCount b : Int))) = false := by
        simp
        omega
      have hb2 : (decide ((teardownCount b : Int) < (teardownCount a : Int))) = false := by
        simp
        omega
      rw [hb1, hb2]
      rfl
    · have hb1 : (decide ((teardownCount a : Int) < (teardownCount b : Int))) = false := by
        simp
        omega
      have hb2 : (decide ((teardownCount b : Int) < (teardownCount a : Int))) = true := by
        simp
        omega
      rw [hb1, hb2]
      rfl
  · intro l
    have hp := stableSortBy_pairwise (sortCmp ⟨"teardown".data, .asc⟩)
      (fun a b => by
        rw [sortCmp_teardown_le_iff, sortCmp_teardown_le_iff]
        exact Nat.le_total _ _)
      (fun a b c hab hbc => by
        rw [sortCmp_teardown_le_iff] at hab hbc ⊢
        exact le_trans hab hbc) l
    exact hp.imp (fun h => (sortCmp_teardown_le_iff _ _).mp h)

/-- Closed witness for the teardown-count comparator theorem at a concrete
pair with zero and one teardown entries. -/
theorem sortData_teardown_count_witness :
    sortCmp ⟨"teardown".data, .asc⟩ devA devT = -1 :=
  (sortData_teardown_count.1 devA devT).1 (by decide)

lemma numKey_score (d : Device) :
    numKey d "repairability_score".data = d.repairability_score.getD (-1) := by
  obtain ⟨n, br, li, sc, td⟩ := d
  cases sc <;> rfl

lemma sortCmp_score (dir : Direction) (a b : Device) :
    sortCmp ⟨"repairability_score".data, dir⟩ a b =
      cmpRet dir
        (decide (a.repairability_score.getD (-1) < b.repairability_score.getD (-1)))
        (decide (b.repairability_score.getD (-1) < a.repairability_score.getD (-1))) := by
  have h0 : sortCmp ⟨"repairability_score".data, dir⟩ a b =
      cmpRet dir
        (decide (numKey a "repairability_score".data < numKey b "repairability_score".data))
        (decide (numKey b "repairability_score".data < numKey a "repairability_score".data)) := rfl
  rw [h0, numKey_score, numKey_score]

/-- C5: under the repairability-score key an absent score is replaced by
the sentinel -1 and therefore compares strictly below every present
nonnegative score (the ascending comparator returns -1); sorting the
scenario dataset ascending with unscored devices included yields the order
C (no score), B (3), A (9). -/
theorem sortData_absent_score_first :
    (∀ (a b : Device) (s : Int),
      a.repairability_score = none → b.repairability_score = some s → 0 ≤ s →
        sortCmp ⟨"repairability_score".data, .asc⟩ a b = -1)
    ∧ sortData ⟨"repairability_score".data, .asc⟩
        (getFilteredData [devA, devB, devC] ⟨[], [], [], true⟩) = [devC, devB, devA] := by
  constructor
  · intro a b s ha hb hs
    rw [sortCmp_score, ha, hb]
    have hb1 : (decide ((Option.none.getD (-1) : Int) < (Option.some s).getD (-1))) = true := by
      simp
      omega
    rw [hb1]
    rfl
  · decide

/-- Closed witness for the absent-score comparator theorem: the unscored
device C compares strictly below the scored device B. -/
theorem sortData_absent_score_first_witness :
    sortCmp ⟨"repairability_score".data, .asc⟩ devC devB = -1 :=
  sortData_absent_score_first.1 devC devB 3 rfl rfl (by decide)

/-- Comparison key extracted by the comparator of `sortData`: a number for
the score and teardown keys, a lowercased string otherwise. -/
inductive SortVal where
  | num (n : Int)
  | str (s : Str)
deriving DecidableEq

/-- The comparison key `sortData` extracts from a device for a given sort
state. -/
def sortVal (st : SortState) (d : Device) : SortVal :=
  if st.key == "repairability_score".data || st.key == "teardown".data then
    .num (numKey d st.key)
  else
    .str (lowerStr (strField d st.key))

lemma strLt_irrefl : ∀ s : Str, strLt s s = false
  | [] => rfl
  | a :: as => by
    simp [strLt, lt_irrefl, strLt_irrefl as]

lemma sortCmp_eq_zero_of_sortVal_eq (st : SortState) (a b : Device)
    (h : sortVal st a = sortVal st b) : sortCmp st a b = 0 := by
  cases hk : (st.key == "repairability_score".data || st.key == "teardown".data)
  · simp only [sortVal, hk, Bool.false_eq_true, if_false] at h
    have heq : lowerStr (strField a st.key) = lowerStr (strField b st.key) := by
      injection h
    simp only [sortCmp, hk, Bool.false_eq_true, if_false, heq]
    simp [cmpRet, strLt_irrefl]
  · simp only [sortVal, hk, if_true] at h
    have heq : numKey a st.key = numKey b st.key := by
      injection h
    simp only [sortCmp, hk, if_true, heq]
    simp [cmpRet, lt_irrefl]

/-- C6: `sortData` is stable for every sort key and direction: the
subsequence of records whose extracted comparison key equals any fixed
value is returned in exactly its original input order. -/
theorem sortData_stable :
    ∀ (st : SortState) (l : List Device) (v : SortVal),
      (sortData st l).filter (fun d => sortVal st d == v)
        = l.filter (fun d => sortVal st d == v) := by
  intro st l v
  refine stableSortBy_filter _ _ (fun a b ha hb => ?_) l
  have h1 : sortVal st a = v := by simpa using ha
  have h2 : sortVal st b = v := by simpa using hb
  exact le_of_eq (sortCmp_eq_zero_of_sortVal_eq st a b (h1.trans h2.symm))

/-- The comparison capacity `MAX_COMPARE` (part_000 line 18). -/
def MAX_COMPARE : Nat := 5

/-- Model of `Set.prototype.add` on an insertion-ordered set of ids: a
no-op when the id is already a member. -/
def setAdd (s : List Str) (x : Str) : List Str :=
  if x ∈ s then s else s ++ [x]

/-- Model of `Set.prototype.delete` on an insertion-ordered set of ids. -/
def setDelete (s : List Str) (x : Str) : List Str :=
  s.filter (fun y => !(y == x))

/-- Outcome of one comparison-checkbox change event: the selection set
afterwards, the final checkbox state, and whether the capacity warning was
raised (`notifyAction` plus drawer highlight). -/
structure ToggleResult where
  selected : List Str
  checkboxChecked : Bool
  warned : Bool
deriving DecidableEq

/-- Model of the comparison-checkbox change handler wired by
`populateTable` (part_000 lines 320-356): checking an id when the set
already holds `MAX_COMPARE` members reverts the checkbox and warns without
touching the set; otherwise the id is added or removed. -/
def toggleCompare (sel : List Str) (selId : Str) (checked : Bool) : ToggleResult :=
  if checked then
    if MAX_COMPARE ≤ sel.length then ⟨sel, false, true⟩
    else ⟨setAdd sel selId, true, false⟩
  else ⟨setDelete sel selId, false, false⟩

/-- C3: with five distinct ids already selected, checking a sixth distinct
id leaves the selection set unchanged at size five, does not add the
attempted member, reverts the checkbox and raises the warning notification
instead of failing. -/
theorem compare_cap_rejects (sel : List Str) (selId : Str)
    (_hnd : sel.Nodup) (hlen : sel.length = 5) (hid : selId ∉ sel) :
    (toggleCompare sel selId true).selected = sel
    ∧ (toggleCompare sel selId true).selected.length = 5
    ∧ selId ∉ (toggleCompare sel selId true).selected
    ∧ (toggleCompare sel selId true).checkboxChecked = false
    ∧ (toggleCompare sel selId true).warned = true := by
  simp [toggleCompare, MAX_COMPARE, hlen, hid]

/-- Closed witness for the capacity rejection at a concrete full selection
of five ids. -/
theorem compare_cap_rejects_witness :
    (toggleCompare [['a'], ['b'], ['c'], ['d'], ['e']] ['f'] true).selected
        = [['a'], ['b'], ['c'], ['d'], ['e']]
    ∧ (toggleCompare [['a'], ['b'], ['c'], ['d'], ['e']] ['f'] true).selected.length = 5
    ∧ ['f'] ∉ (toggleCompare [['a'], ['b'], ['c'], ['d'], ['e']] ['f'] true).selected
    ∧ (toggleCompare [['a'], ['b'], ['c'], ['d'], ['e']] ['f'] true).checkboxChecked = false
    ∧ (toggleCompare [['a'], ['b'], ['c'], ['d'], ['e']] ['f'] true).warned = true :=
  compare_cap_rejects [['a'], ['b'], ['c'], ['d'], ['e']] ['f']
    (by decide) (by decide) (by decide)

/-- The five URL query parameters written and read by the synchronizer
(part_000 lines 812-860); `none` means the parameter is absent from the
query string. `URLSearchParams` stores and returns values verbatim, so the
query is modelled as this keyed record. -/
structure Query where
  q : Option Str
  brand : Option Str
  sort : Option Str
  score : Option Str
  noscore : Option Str
deriving DecidableEq

/-- The in-memory filter/sort/include-unscored configuration persisted to
the URL: search text, brand value, `currentSort`, the hidden score-filter
input value (empty when unset) and the include-unscored checkbox. -/
structure AppState where
  searchText : Str
  brand : Str
  sortKey : Str
  sortDir : Direction
  scoreFilter : Str
  includeNoScore : Bool
deriving DecidableEq

/-- A parameter that is set and then deleted when empty (part_000 lines
822-825). -/
def cleanParam (v : Str) : Option Str :=
  if v.isEmpty then none else some v

/-- Model of `stateToQuery` (part_000 lines 812-828): serialize the state
into the five parameters, dropping empty values; the `sort` parameter is
always `key:direction`. -/
def stateToQuery (s : AppState) : Query where
  q := cleanParam s.searchText
  brand := cleanParam s.brand
  sort := some (s.sortKey ++ ':' :: dirStr s.sortDir)
  score := cleanParam s.scoreFilter
  noscore := cleanParam (if s.includeNoScore then "1".data else [])

/-- Model of `String.prototype.split` at a single separator character:
splits at every occurrence, yielding at least one piece. -/
def splitOnChar (c : Char) : List Char → List Str
  | [] => [[]]
  | a :: as =>
    let r := splitOnChar c as
    if a == c then [] :: r
    else
      match r with
      | [] => [[a]]
      | h :: t => (a :: h) :: t

/-- Model of the `sort` parameter handling of `queryToState` (part_000
lines 846-850): when the parameter contains a colon, the piece before the
first colon replaces the key if nonempty and the piece after it replaces
the direction if it reads asc or desc. -/
def parseSort (cur : Str × Direction) (s : Str) : Str × Direction :=
  if s.contains ':' then
    let parts := splitOnChar ':' s
    let key := parts.headD []
    let dir := (parts.drop 1).headD []
    let k := if key.isEmpty then cur.1 else key
    let d :=
      if dir == "asc".data then Direction.asc
      else if dir == "desc".data then Direction.desc
      else cur.2
    (k, d)
  else cur

/-- Model of `queryToState` (part_000 lines 830-860), run once at startup
against the default state (empty inputs, name ascending): it restores the
inputs from the parameters, recreates the hidden score-filter input when a
score parameter is present, and checks the include-unscored box exactly
when the noscore parameter reads 1. -/
def queryToState (qr : Query) : AppState :=
  let sortP := parseSort ("name".data, Direction.asc) (qr.sort.getD [])
  { searchText := qr.q.getD []
    brand := qr.brand.getD []
    sortKey := sortP.1
    sortDir := sortP.2
    scoreFilter := qr.score.getD []
    includeNoScore := qr.noscore.getD [] == "1".data }

lemma splitOnChar_append (c : Char) :
    ∀ key rest : List Char, c ∉ key →
      splitOnChar c (key ++ c :: rest) = key :: splitOnChar c rest
  | [], rest, _ => by
    simp [splitOnChar]
  | a :: as, rest, h => by
    have hne : a ≠ c := fun hh => h (hh ▸ List.mem_cons_self a as)
    have hac : (a == c) = false := by simp [hne]
    have hcas : c ∉ as := fun hh => h (List.mem_cons_of_mem a hh)
    have hih := splitOnChar_append c as rest hcas
    show splitOnChar c (a :: (as ++ c :: rest)) = (a :: as) :: splitOnChar c rest
    rw [splitOnChar, hih]
    simp [hac]

lemma cleanParam_getD (v : Str) : (cleanParam v).getD [] = v := by
  cases v <;> simp [cleanParam]

lemma parseSort_roundtrip (key : Str) (dir : Direction)
    (hk : key ≠ []) (hc : ':' ∉ key) :
    parseSort ("name".data, Direction.asc) (key ++ ':' :: dirStr dir) = (key, dir) := by
  have hcon : ((key ++ ':' :: dirStr dir).contains ':') = true :=
    List.elem_iff.mpr (List.mem_append_right key (List.mem_cons_self ':' (dirStr dir)))
  have hdir : splitOnChar ':' (dirStr dir) = [dirStr dir] := by
    cases dir <;> decide
  have hke : key.isEmpty = false := by
    cases key
    · exact absurd rfl hk
    · rfl
  rw [parseSort, if_pos hcon, splitOnChar_append ':' key (dirStr dir) hc, hdir]
  simp only [List.headD_cons, List.drop_succ_cons, List.drop_zero, hke,
    Bool.false_eq_true, if_false]
  cases dir
  · have h1 : (dirStr Direction.asc == "asc".data) = true := by decide
    rw [h1]
    simp
  · have h1 : (dirStr Direction.desc == "asc".data) = false := by decide
    have h2 : (dirStr Direction.desc == "desc".data) = true := by decide
    rw [h1, h2]
    simp

/-- C2: deserializing the query produced by serializing any configuration
whose sort key is a nonempty colon-free string (as all four real sort keys
are) restores the configuration exactly: search text, brand, sort key and
direction, score filter and include-unscored flag. -/
theorem queryToState_stateToQuery (s : AppState)
    (hk : s.sortKey ≠ []) (hc : ':' ∉ s.sortKey) :
    queryToState (stateToQuery s) = s := by
  obtain ⟨search, brand, key, dir, score, inc⟩ := s
  unfold queryToState stateToQuery
  simp only [AppState.mk.injEq]
  refine ⟨cleanParam_getD search, cleanParam_getD brand, ?_, ?_, cleanParam_getD score, ?_⟩
  · simp only [Option.getD_some]
    rw [parseSort_roundtrip key dir hk hc]
  · simp only [Option.getD_some]
    rw [parseSort_roundtrip key dir hk hc]
  · cases inc <;> simp [cleanParam]

/-- Closed witness for the URL round trip at the spec scenario state:
search pixel, brand Google, repairability-score descending, score filter 7,
include-unscored on. -/
theorem queryToState_stateToQuery_witness :
    queryToState (stateToQuery
        ⟨"pixel".data, "Google".data, "repairability_score".data, .desc, "7".data, true⟩)
      = ⟨"pixel".data, "Google".data, "repairability_score".data, .desc, "7".data, true⟩ :=
  queryToState_stateToQuery
    ⟨"pixel".data, "Google".data, "repairability_score".data, .desc, "7".data, true⟩
    (by decide) (by decide)

/-- Increment the entry of a bucket list at a given index (a no-op past
the end, which never happens for in-range scores). -/
def incrAt : List Nat → Nat → List Nat
  | [], _ => []
  | x :: xs, 0 => (x + 1) :: xs
  | x :: xs, n + 1 => x :: incrAt xs n

/-- Whether a record counts towards the histogram: its score is present
and lies in [0, 10]. Scores are integers or absent (data model section 3),
so `Number.isInteger` holds exactly when the score is present. -/
def scoreInRange (d : Device) : Bool :=
  match d.repairability_score with
  | some s => decide (0 ≤ s) && decide (s ≤ 10)
  | none => false

/-- One record of the bucket loop of `renderChart` (part_003 lines 23-26,
identically script.js lines 216-219): an integer score in [0, 10]
increments exactly its bucket. -/
def bucketStep (b : List Nat) (d : Device) : List Nat :=
  match d.repairability_score with
  | some s => if 0 ≤ s ∧ s ≤ 10 then incrAt b s.toNat else b
  | none => b

/-- The 11 score buckets computed by `renderChart` over a dataset,
starting from `Array(11).fill(0)`. -/
def computeBuckets (data : List Device) : List Nat :=
  data.foldl bucketStep (List.replicate 11 0)

/-- Model of the data-dependent part of `renderChart` (part_003 lines
14-26): an empty dataset yields the error state instead of buckets. -/
def renderChartBuckets (data : List Device) : Option (List Nat) :=
  if data.isEmpty then none else some (computeBuckets data)

lemma incrAt_length : ∀ (b : List Nat) (n : Nat), (incrAt b n).length = b.length
  | [], _ => rfl
  | _ :: _, 0 => rfl
  | _ :: xs, n + 1 => by
    rw [incrAt]
    simp [incrAt_length xs n]

lemma incrAt_sum : ∀ (b : List Nat) (n : Nat), n < b.length →
    (incrAt b n).sum = b.sum + 1
  | [], n, h => by simp at h
  | x :: xs, 0, _ => by
    rw [incrAt]
    simp
    omega
  | x :: xs, n + 1, h => by
    rw [incrAt]
    have hn : n < xs.length := by simpa using h
    simp [incrAt_sum xs n hn, Nat.add_assoc]

lemma bucketStep_length (b : List Nat) (d : Device) :
    (bucketStep b d).length = b.length := by
  rw [bucketStep]
  cases d.repairability_score with
  | none => rfl
  | some s =>
    by_cases h : 0 ≤ s ∧ s ≤ 10
    · simp [h, incrAt_length]
    · simp [h]

lemma bucketStep_sum (b : List Nat) (d : Device) (hb : b.length = 11) :
    (bucketStep b d).sum = b.sum + (if scoreInRange d then 1 else 0) := by
  rw [bucketStep, scoreInRange]
  cases d.repairability_score with
  | none => simp
  | some s =>
    by_cases h : 0 ≤ s ∧ s ≤ 10
    · have ht : s.toNat < b.length := by
        rw [hb]
        omega
      simp [h, incrAt_sum b s.toNat ht, h.1, h.2]
    · have hfalse : (decide (0 ≤ s) && decide (s ≤ 10)) = false := by
        rcases not_and_or.mp h with h1 | h1 <;> simp [h1]
      simp [h, hfalse]

lemma foldl_bucketStep_length : ∀ (l : List Device) (b : List Nat),
    (l.foldl bucketStep b).length = b.length
  | [], _ => rfl
  | d :: l, b => by
    rw [List.foldl_cons]
    rw [foldl_bucketStep_length l (bucketStep b d), bucketStep_length]

lemma foldl_bucketStep_sum : ∀ (l : List Device) (b : List Nat), b.length = 11 →
    (l.foldl bucketStep b).sum = b.sum + l.countP scoreInRange
  | [], _, _ => by simp
  | d :: l, b, hb => by
    rw [List.foldl_cons,
      foldl_bucketStep_sum l (bucketStep b d) ((bucketStep_length b d).trans hb),
      bucketStep_sum b d hb, List.countP_cons]
    by_cases h : scoreInRange d = true
    · simp [h]
      omega
    · simp [h]

lemma computeBuckets_length (data : List Device) : (computeBuckets data).length = 11 := by
  rw [computeBuckets, foldl_bucketStep_length]
  simp

lemma computeBuckets_sum (data : List Device) :
    (computeBuckets data).sum = data.countP scoreInRange := by
  rw [computeBuckets, foldl_bucketStep_sum data _ (by simp)]
  simp

/-- C7: for every nonempty dataset the chart renderer computes exactly 11
buckets whose total is at most the dataset size, with equality exactly when
every score is a present integer in [0, 10]; and appending a record to a
dataset increments exactly the bucket of its score when that score is in
range and leaves the buckets unchanged otherwise. -/
theorem renderChart_buckets :
    (∀ (data : List Device) (b : List Nat), renderChartBuckets data = some b →
      b.length = 11
      ∧ b.sum ≤ data.length
      ∧ (b.sum = data.length ↔ ∀ d ∈ data, scoreInRange d = true))
    ∧ ∀ (data : List Device) (d : Device),
        computeBuckets (data ++ [d]) =
          if scoreInRange d then
            incrAt (computeBuckets data) (d.repairability_score.getD 0).toNat
          else computeBuckets data := by
  constructor
  · intro data b hsome
    have hb : b = computeBuckets data := by
      rw [renderChartBuckets] at hsome
      by_cases he : data.isEmpty <;> simp [he] at hsome
      exact hsome.symm
    subst hb
    refine ⟨computeBuckets_length data, ?_, ?_⟩
    · rw [computeBuckets_sum]
      exact List.countP_le_length _
    · rw [computeBuckets_sum]
      exact List.countP_eq_length
  · intro data d
    rw [computeBuckets, computeBuckets, List.foldl_append, List.foldl_cons, List.foldl_nil]
    show bucketStep (data.foldl bucketStep (List.replicate 11 0)) d = _
    rw [bucketStep, scoreInRange]
    cases d.repairability_score with
    | none => simp
    | some s =>
      by_cases h : 0 ≤ s ∧ s ≤ 10
      · simp [h, h.1, h.2, computeBuckets]
      · have hfalse : (decide (0 ≤ s) && decide (s ≤ 10)) = false := by
          rcases not_and_or.mp h with h1 | h1 <;> simp [h1]
        simp [h, hfalse]

/-- Closed witness for the bucket theorem on the nonempty scenario
dataset. -/
theorem renderChart_buckets_witness :
    (computeBuckets [devA, devB, devC]).length = 11
    ∧ (computeBuckets [devA, devB, devC]).sum ≤ [devA, devB, devC].length
    ∧ ((computeBuckets [devA, devB, devC]).sum = [devA, devB, devC].length
        ↔ ∀ d ∈ [devA, devB, devC], scoreInRange d = true) :=
  renderChart_buckets.1 [devA, devB, devC] (computeBuckets [devA, devB, devC]) rfl

/-- Model of `isArchivedTeardown` (part_000 lines 88-90). -/
def isArchivedTeardown (t : Teardown) : Bool :=
  t.tags.contains "archived".data

/-- The 0/1 archived flag computed for each side by the comparator of
`sortTeardowns`. -/
def archFlag (t : Teardown) : Int :=
  if isArchivedTeardown t then 1 else 0

/-- The comparator of `sortTeardowns` (part_000 lines 94-99) on
index-decorated entries: archived flag first, original index as tie
breaker. -/
def tdCmp (a b : Nat × Teardown) : Int :=
  if archFlag a.2 ≠ archFlag b.2 then archFlag a.2 - archFlag b.2
  else (a.1 : Int) - (b.1 : Int)

/-- Model of `sortTeardowns` (part_000 lines 92-101): decorate with the
original indices, sort by the archived-flag-then-index comparator, strip
the indices. -/
def sortTeardowns (teardowns : List Teardown) : List Teardown :=
  (stableSortBy tdCmp (List.enumFrom 0 teardowns)).map Prod.snd

/-- Model of the `TAG_PRIORITY` lookup with its `?? 999` fallback
(part_000 lines 78-85). -/
def TAG_PRIORITY (t : Str) : Int :=
  if t == "starred".data then 0
  else if t == "user_contributed".data then 1
  else if t == "archived".data then 2
  else 999

/-- Model of `sortTags` (part_000 lines 84-86). -/
def sortTags (tags : List Str) : List Str :=
  stableSortBy (fun a b => TAG_PRIORITY a - TAG_PRIORITY b) tags

/-- The insertion-ordered deduplicated union of tag sets built by the
`Set` in `aggregateTeardownTags` (part_000 lines 129-133). -/
def collectTags (tds : List Teardown) : List Str :=
  tds.foldl (fun s td => td.tags.foldl setAdd s) []

/-- Model of `aggregateTeardownTags` (part_000 lines 129-133). -/
def aggregateTeardownTags (tds : List Teardown) : List Str :=
  sortTags (collectTags tds)

lemma le_fst_of_mem_enumFrom :
    ∀ (n : Nat) (l : List Teardown) (p : Nat × Teardown),
      p ∈ List.enumFrom n l → n ≤ p.1
  | n, [], p, h => by simp [List.enumFrom] at h
  | n, x :: xs, p, h => by
    rcases List.mem_cons.mp h with rfl | h2
    · exact le_refl n
    · exact le_trans (Nat.le_succ n) (le_fst_of_mem_enumFrom (n + 1) xs p h2)

lemma insertCmp_append_of_gt {α : Type _} (cmp : α → α → Int) (x : α) :
    ∀ (F A : List α), (∀ y ∈ F, ¬ cmp x y ≤ 0) →
      insertCmp cmp x (F ++ A) = F ++ insertCmp cmp x A
  | [], A, _ => rfl
  | y :: F, A, h => by
    rw [List.cons_append, insertCmp,
      if_neg (h y (List.mem_cons_self y F)),
      insertCmp_append_of_gt cmp x F A (fun z hz => h z (List.mem_cons_of_mem y hz))]
    rfl

lemma stableSortBy_tdCmp_enumFrom :
    ∀ (l : List Teardown) (n : Nat),
      stableSortBy tdCmp (List.enumFrom n l)
        = (List.enumFrom n l).filter (fun p => !isArchivedTeardown p.2)
          ++ (List.enumFrom n l).filter (fun p => isArchivedTeardown p.2)
  | [], n => rfl
  | t :: ts, n => by
    have hIH := stableSortBy_tdCmp_enumFrom ts (n + 1)
    have henum : List.enumFrom n (t :: ts) = (n, t) :: List.enumFrom (n + 1) ts := rfl
    rw [henum]
    have hsort : stableSortBy tdCmp ((n, t) :: List.enumFrom (n + 1) ts)
        = insertCmp tdCmp (n, t) (stableSortBy tdCmp (List.enumFrom (n + 1) ts)) := rfl
    rw [hsort, hIH]
    set F := (List.enumFrom (n + 1) ts).filter (fun p => !isArchivedTeardown p.2) with hF
    set A := (List.enumFrom (n + 1) ts).filter (fun p => isArchivedTeardown p.2) with hA
    have hFmem : ∀ p ∈ F, n + 1 ≤ p.1 := fun p hp =>
      le_fst_of_mem_enumFrom (n + 1) ts p (List.mem_of_mem_filter hp)
    have hAmem : ∀ p ∈ A, n + 1 ≤ p.1 := fun p hp =>
      le_fst_of_mem_enumFrom (n + 1) ts p (List.mem_of_mem_filter hp)
    by_cases ht : isArchivedTeardown t = true
    · have hstep : ∀ y ∈ F, ¬ tdCmp (n, t) y ≤ 0 := by
        intro y hy
        have hyarch : isArchivedTeardown y.2 = false := by
          simpa using List.of_mem_filter hy
        have hval : tdCmp (n, t) y = 1 := by
          rw [tdCmp]
          simp [archFlag, ht, hyarch]
        rw [hval]
        decide
      rw [insertCmp_append_of_gt tdCmp (n, t) F A hstep]
      have hins : insertCmp tdCmp (n, t) A = (n, t) :: A := by
        cases hA2 : A with
        | nil => rfl
        | cons z zs =>
          rw [insertCmp]
          have hz : z ∈ A := by
            rw [hA2]
            exact List.mem_cons_self z zs
          have hzarch : isArchivedTeardown z.2 = true := by
            simpa using List.of_mem_filter hz
          have hzn : n + 1 ≤ z.1 := hAmem z hz
          have hle : tdCmp (n, t) z ≤ 0 := by
            rw [tdCmp]
            simp [archFlag, ht, hzarch]
            omega
          rw [if_pos hle]
      rw [hins, List.filter_cons, List.filter_cons]
      simp [ht, ← hF, ← hA]
    · have hht : isArchivedTeardown t = false := by
        simpa using ht
      have hfront : insertCmp tdCmp (n, t) (F ++ A) = (n, t) :: (F ++ A) := by
        cases hFA : F ++ A with
        | nil => rfl
        | cons z zs =>
          rw [insertCmp]
          have hz : z ∈ F ++ A := by
            rw [hFA]
            exact List.mem_cons_self z zs
          have hle : tdCmp (n, t) z ≤ 0 := by
            rcases List.mem_append.mp hz with hzF | hzA
            · have hzarch : isArchivedTeardown z.2 = false := by
                simpa using List.of_mem_filter hzF
              have hzn : n + 1 ≤ z.1 := hFmem z hzF
              rw [tdCmp]
              simp [archFlag, hht, hzarch]
              omega
            · have hzarch : isArchivedTeardown z.2 = true := by
                simpa using List.of_mem_filter hzA
              rw [tdCmp]
              simp [archFlag, hht, hzarch]
          rw [if_pos hle]
      rw [hfront, List.filter_cons, List.filter_cons]
      simp [hht, ← hF, ← hA]

lemma map_snd_filter_enumFrom (p : Teardown → Bool) :
    ∀ (n : Nat) (l : List Teardown),
      ((List.enumFrom n l).filter (fun q => p q.2)).map Prod.snd = l.filter p
  | _, [] => rfl
  | n, t :: ts => by
    rw [show List.enumFrom n (t :: ts) = (n, t) :: List.enumFrom (n + 1) ts from rfl]
    by_cases h : p t = true
    · rw [List.filter_cons_of_pos (by simpa using h), List.filter_cons_of_pos h,
        List.map_cons, map_snd_filter_enumFrom p (n + 1) ts]
    · rw [List.filter_cons_of_neg (by simpa using h), List.filter_cons_of_neg h,
        map_snd_filter_enumFrom p (n + 1) ts]

/-- The rendered teardown order of part_000: all non-archived entries in
original order, then all archived entries in original order. -/
lemma sortTeardowns_eq_filter (l : List Teardown) :
    sortTeardowns l
      = l.filter (fun t => !isArchivedTeardown t)
        ++ l.filter (fun t => isArchivedTeardown t) := by
  rw [sortTeardowns, stableSortBy_tdCmp_enumFrom l 0, List.map_append,
    map_snd_filter_enumFrom (fun t => !isArchivedTeardown t) 0 l,
    map_snd_filter_enumFrom (fun t => isArchivedTeardown t) 0 l]

lemma mem_setAdd (s : List Str) (x y : Str) : y ∈ setAdd s x ↔ y ∈ s ∨ y = x := by
  rw [setAdd]
  by_cases h : x ∈ s
  · rw [if_pos h]
    constructor
    · exact Or.inl
    · rintro (hy | rfl)
      · exact hy
      · exact h
  · rw [if_neg h]
    simp

lemma setAdd_nodup (s : List Str) (x : Str) (h : s.Nodup) : (setAdd s x).Nodup := by
  rw [setAdd]
  by_cases hx : x ∈ s
  · rwa [if_pos hx]
  · rw [if_neg hx]
    simp [List.nodup_append, h, hx]

lemma mem_foldl_setAdd :
    ∀ (xs : List Str) (s : List Str) (y : Str),
      y ∈ xs.foldl setAdd s ↔ y ∈ s ∨ y ∈ xs
  | [], s, y => by simp
  | x :: xs, s, y => by
    rw [List.foldl_cons, mem_foldl_setAdd xs (setAdd s x) y, mem_setAdd]
    simp [or_assoc]

lemma nodup_foldl_setAdd :
    ∀ (xs : List Str) (s : List Str), s.Nodup → (xs.foldl setAdd s).Nodup
  | [], _, h => h
  | x :: xs, s, h => nodup_foldl_setAdd xs (setAdd s x) (setAdd_nodup s x h)

lemma mem_collectTags_aux :
    ∀ (tds : List Teardown) (s : List Str) (y : Str),
      y ∈ tds.foldl (fun s td => td.tags.foldl setAdd s) s
        ↔ y ∈ s ∨ ∃ td ∈ tds, y ∈ td.tags
  | [], s, y => by simp
  | td :: tds, s, y => by
    rw [List.foldl_cons, mem_collectTags_aux tds _ y, mem_foldl_setAdd]
    simp [or_assoc]

lemma nodup_collectTags_aux :
    ∀ (tds : List Teardown) (s : List Str), s.Nodup →
      (tds.foldl (fun s td => td.tags.foldl setAdd s) s).Nodup
  | [], _, h => h
  | td :: tds, s, h =>
    nodup_collectTags_aux tds _ (nodup_foldl_setAdd td.tags s h)

lemma collectTags_nodup (tds : List Teardown) : (collectTags tds).Nodup :=
  nodup_collectTags_aux tds [] List.nodup_nil

lemma mem_collectTags (tds : List Teardown) (y : Str) :
    y ∈ collectTags tds ↔ ∃ td ∈ tds, y ∈ td.tags := by
  rw [collectTags, mem_collectTags_aux]
  simp

lemma sortTags_perm (l : List Str) : (sortTags l).Perm l :=
  stableSortBy_perm _ l

/-- C8: the rendered teardown entries are all non-archived entries first,
then all archived entries, each group in original order; the scenario list
[T1 archived, T2 untagged] renders as [T2, T1]; and the aggregated tag set
of a device is deduplicated, sorted by nondecreasing tag priority (starred
0, user_contributed 1, archived 2, unknown 999 last) and contains exactly
the tags of its teardowns. -/
theorem teardown_render_order :
    (∀ l : List Teardown,
      sortTeardowns l
        = l.filter (fun t => !isArchivedTeardown t)
          ++ l.filter (fun t => isArchivedTeardown t))
    ∧ sortTeardowns [tdT1, tdT2] = [tdT2, tdT1]
    ∧ ∀ tds : List Teardown,
        (aggregateTeardownTags tds).Nodup
        ∧ (aggregateTeardownTags tds).Pairwise
            (fun a b => TAG_PRIORITY a ≤ TAG_PRIORITY b)
        ∧ ∀ x : Str, x ∈ aggregateTeardownTags tds ↔ ∃ td ∈ tds, x ∈ td.tags := by
  refine ⟨sortTeardowns_eq_filter, by decide, fun tds => ⟨?_, ?_, ?_⟩⟩
  · rw [aggregateTeardownTags, (sortTags_perm (collectTags tds)).nodup_iff]
    exact collectTags_nodup tds
  · have hp := stableSortBy_pairwise (fun a b => TAG_PRIORITY a - TAG_PRIORITY b)
      (fun a b => by
        rcases le_total (TAG_PRIORITY a) (TAG_PRIORITY b) with h | h
        · exact Or.inl (sub_nonpos.mpr h)
        · exact Or.inr (sub_nonpos.mpr h))
      (fun a b c hab hbc =>
        sub_nonpos.mpr (le_trans (sub_nonpos.mp hab) (sub_nonpos.mp hbc)))
      (collectTags tds)
    exact hp.imp (fun h => sub_nonpos.mp h)
  · intro x
    rw [aggregateTeardownTags, (sortTags_perm (collectTags tds)).mem_iff, mem_collectTags]

/-- C9: `sortTeardowns` returns a permutation of its input: the same
multiset of entries, none added, dropped or duplicated (the input array
itself is untouched, since the function sorts a freshly built decorated
copy). -/
theorem sortTeardowns_perm (l : List Teardown) : (sortTeardowns l).Perm l := by
  rw [sortTeardowns_eq_filter]
  have h : ∀ m : List Teardown,
      (m.filter (fun t => !isArchivedTeardown t)
        ++ m.filter (fun t => isArchivedTeardown t)).Perm m := by
    intro m
    induction m with
    | nil => exact List.Perm.refl _
    | cons x m ih =>
      by_cases hx : isArchivedTeardown x = true
      · rw [List.filter_cons_of_neg (by simp [hx]), List.filter_cons_of_pos hx]
        exact List.perm_middle.trans (ih.cons x)
      · have hx2 : isArchivedTeardown x = false := by simpa using hx
        rw [List.filter_cons_of_pos (by simp [hx2]), List.filter_cons_of_neg hx]
        exact ih.cons x
  exact h l

end RepairSite
